import Mathlib

/-
Verification development for the Backtest scoring engine.

The repository scores monthly economic readings (ISM, NMI, UMCSI, M2,
CPI, interest rates, housing permits) with hand-tuned threshold tables.
Numeric readings are modelled as rationals; the Python value None is
modelled as Option.none.  The Python function round (banker rounding,
half to even on exact ties) is modelled by pyRound below.
-/

/-- Python round to the nearest integer, ties resolved to the even
integer (banker rounding), on exact rationals.  The condition
2q = 2 floor q + 1 says the fractional part of q is exactly one half. -/
def pyRound (q : ℚ) : ℤ :=
  if 2 * q = 2 * ⌊q⌋ + 1 then (if Even ⌊q⌋ then ⌊q⌋ else ⌊q⌋ + 1) else round q

/-- Python round(x, 1): round to one decimal place. -/
def round1 (q : ℚ) : ℚ := (pyRound (10 * q) : ℚ) / 10

/-- Python round(x, 2): round to two decimal places. -/
def round2 (q : ℚ) : ℚ := (pyRound (100 * q) : ℚ) / 100

/-- Python min(x :: xs, key := f): the first element attaining the least
value of f, scanning left to right and replacing the current best only
on a strictly smaller key. -/
def pymin {α : Type} (f : α → ℚ) (x : α) (xs : List α) : α :=
  xs.foldl (fun b a => if f a < f b then a else b) x

/-- Python slice l[-n:] for a natural n: the last n elements, the whole
list when n = 0. -/
def pyLastSlice {α : Type} (n : ℕ) (l : List α) : List α :=
  if n = 0 then l else l.drop (l.length - n)

/- ===================== ISM.py ===================== -/

/-- The score dictionary built by ISM.py and NMI.py: score, bias, phase
and scenario fields. -/
structure ScoreInfo where
  score : ℚ
  bias : String
  phase : String
  scenario : String
deriving DecidableEq, Repr

/-- Standard scenarios 1 to 4 of ISMDataPoint.calculate_score (the part
after the transition checks), including the final round(score, 1). -/
def ism_standard_score (current_ism ism_change : ℚ) : ScoreInfo :=
  if current_ism > 50 then
    if ism_change > 0 then
      ⟨round1 (5 + min 3 (ism_change / 2)), "Short Bias", "Initiation", "Above 50 and growing"⟩
    else
      ⟨round1 (max 0 (5 + ism_change)), "Short Bias", "Initiation", "Above 50 and slowing"⟩
  else
    if ism_change < 0 then
      ⟨round1 (-5 - min 3 (|ism_change| / 2)), "Long Bias", "Definition", "Below 50 and slowing"⟩
    else
      ⟨round1 (min 0 (-5 + ism_change)), "Long Bias", "Definition", "Below 50 and growing"⟩

/-- ISMDataPoint.calculate_score: returns none when change is absent;
otherwise checks the two transition scenarios against the previous raw
value and falls through to the standard scenarios. -/
def ISM_calculate_score (value : ℚ) (change : Option ℚ) (previous_ism : Option ℚ) :
    Option ScoreInfo :=
  match change with
  | none => none
  | some ism_change =>
    match previous_ism with
    | some prev =>
      if prev > 50 ∧ value ≤ 50 then
        some ⟨round1 (8 + min 2 (|ism_change| / 2)), "Long Bias", "Project Diffusion",
              "ISM troughs below 50"⟩
      else if prev < 50 ∧ value ≥ 50 then
        some ⟨round1 (-8 - min 2 (ism_change / 2)), "Short Bias", "Project Initiation",
              "ISM peaks above 50"⟩
      else some (ism_standard_score value ism_change)
    | none => some (ism_standard_score value ism_change)

/-- A stored ISM data point: date (abstract month index), value, change
and the lazily filled score_info. -/
structure ISMDataPoint where
  date : ℕ
  value : ℚ
  change : Option ℚ
  score_info : Option ScoreInfo
deriving DecidableEq, Repr

/-- The dictionary shape produced by ISMDataPoint.to_dict. -/
structure ISMDict where
  date : ℕ
  value : ℚ
  change : Option ℚ
  score : Option ℚ
  bias : Option String
  phase : Option String
  scenario : Option String
deriving DecidableEq, Repr

/-- ISMDataPoint.to_dict: each score field is taken from score_info when
present and is None otherwise. -/
def ISMDataPoint.to_dict (p : ISMDataPoint) : ISMDict :=
  ⟨p.date, p.value, p.change,
   p.score_info.map ScoreInfo.score, p.score_info.map ScoreInfo.bias,
   p.score_info.map ScoreInfo.phase, p.score_info.map ScoreInfo.scenario⟩

/-- ISMData.add_data_point: derives change from the last stored value
when absent, scores the new point against the last stored value, and
appends it. -/
def ISM_add_data_point (s : List ISMDataPoint) (date : ℕ) (value : ℚ)
    (change : Option ℚ) : List ISMDataPoint :=
  let change :=
    match change, s.getLast? with
    | none, some p => some (value - p.value)
    | c, _ => c
  let previous_ism := s.getLast?.map ISMDataPoint.value
  s ++ [⟨date, value, change, ISM_calculate_score value change previous_ism⟩]

/-- A run of ISMData.add_data_point calls with no explicit change,
starting from the empty collection. -/
def ISM_run (inputs : List (ℕ × ℚ)) : List ISMDataPoint :=
  inputs.foldl (fun s x => ISM_add_data_point s x.1 x.2 none) []

/- ===================== NMI.py ===================== -/

/-- Standard scenarios 1 to 4 of NMIDataPoint.calculate_score. -/
def nmi_standard_score (current_NMI NMI_change : ℚ) : ScoreInfo :=
  if current_NMI > 50 then
    if NMI_change > 0 then
      ⟨round1 (5 + min 3 (NMI_change / 2)), "Short Bias", "Initiation", "Above 50 and growing"⟩
    else
      ⟨round1 (max 0 (5 + NMI_change)), "Short Bias", "Initiation", "Above 50 and slowing"⟩
  else
    if NMI_change < 0 then
      ⟨round1 (-5 - min 3 (|NMI_change| / 2)), "Long Bias", "Definition", "Below 50 and slowing"⟩
    else
      ⟨round1 (min 0 (-5 + NMI_change)), "Long Bias", "Definition", "Below 50 and growing"⟩

/-- NMIDataPoint.calculate_score: same structure as the ISM scorer, but
the two transition scenarios carry the opposite sign. -/
def NMI_calculate_score (value : ℚ) (change : Option ℚ) (previous_NMI : Option ℚ) :
    Option ScoreInfo :=
  match change with
  | none => none
  | some NMI_change =>
    match previous_NMI with
    | some prev =>
      if prev > 50 ∧ value ≤ 50 then
        some ⟨round1 (-8 - min 2 (|NMI_change| / 2)), "Long Bias", "Project Diffusion",
              "NMI troughs below 50"⟩
      else if prev < 50 ∧ value ≥ 50 then
        some ⟨round1 (8 + min 2 (NMI_change / 2)), "Short Bias", "Project Initiation",
              "NMI peaks above 50"⟩
      else some (nmi_standard_score value NMI_change)
    | none => some (nmi_standard_score value NMI_change)

/-- A stored NMI data point. -/
structure NMIDataPoint where
  date : ℕ
  value : ℚ
  change : Option ℚ
  score_info : Option ScoreInfo
deriving DecidableEq, Repr

/-- NMIDataPoint.to_dict (same dictionary shape as the ISM one). -/
def NMIDataPoint.to_dict (p : NMIDataPoint) : ISMDict :=
  ⟨p.date, p.value, p.change,
   p.score_info.map ScoreInfo.score, p.score_info.map ScoreInfo.bias,
   p.score_info.map ScoreInfo.phase, p.score_info.map ScoreInfo.scenario⟩

/-- NMIData.add_data_point. -/
def NMI_add_data_point (s : List NMIDataPoint) (date : ℕ) (value : ℚ)
    (change : Option ℚ) : List NMIDataPoint :=
  let change :=
    match change, s.getLast? with
    | none, some p => some (value - p.value)
    | c, _ => c
  let previous_NMI := s.getLast?.map NMIDataPoint.value
  s ++ [⟨date, value, change, NMI_calculate_score value change previous_NMI⟩]

/-- A run of NMIData.add_data_point calls with no explicit change. -/
def NMI_run (inputs : List (ℕ × ℚ)) : List NMIDataPoint :=
  inputs.foldl (fun s x => NMI_add_data_point s x.1 x.2 none) []

/- ===================== UMCSI.py ===================== -/

/-- The UMCSI scoring mapping, a dense integer table over 55..105, in
declaration order. -/
def score_map : List (ℤ × ℤ) :=
  [(55, 10), (56, 10), (57, 9), (58, 9), (59, 8), (60, 7), (61, 6), (62, 5),
   (63, -10), (64, -9), (65, -8), (66, -7), (67, -6), (68, -5), (69, -4),
   (70, -3), (71, -2), (72, -1), (73, -1), (74, 0), (75, 0), (76, 1), (77, 1),
   (78, 2), (79, 2), (80, 3), (81, 3), (82, 4), (83, 4), (84, 5), (85, 5),
   (86, 6), (87, 6), (88, 7), (89, 7), (90, 8), (91, 8), (92, 9), (93, 9),
   (94, 10), (95, 10), (96, -5), (97, -5), (98, -6), (99, -6), (100, -7),
   (101, -8), (102, -9), (103, -9), (104, -10), (105, -10)]

/-- Lookup of a key in an integer-keyed dict modelled as an association
list: the value at the first matching key, none when absent. -/
def dict_find (t : List (ℤ × ℤ)) (k : ℤ) : Option ℤ :=
  match t with
  | [] => none
  | p :: ps => if p.1 = k then some p.2 else dict_find ps k

/-- UMCSIDataPoint.calculate_score: round the value to the nearest
integer, clamp into 55..105, look the key up in score_map, default 0
when the key is absent (the dict.get default). -/
def UMCSI_calculate_score (value : ℚ) : ℤ :=
  let rounded_value := pyRound value
  let clamped_value := max 55 (min 105 rounded_value)
  (dict_find score_map clamped_value).getD 0

/-- A stored UMCSI data point. -/
structure UMCSIDataPoint where
  date : ℕ
  value : ℚ
  change : Option ℚ
  score : Option ℤ
deriving DecidableEq, Repr

/-- UMCSIData.add_data_point: derives change from the last stored value
when absent, scores the new point from its value alone, appends it.
The value argument is a plain float in the source, so the None check at
the top of calculate_score never fires and the score is always set. -/
def UMCSI_add_data_point (s : List UMCSIDataPoint) (date : ℕ) (value : ℚ)
    (change : Option ℚ) : List UMCSIDataPoint :=
  let change :=
    match change, s.getLast? with
    | none, some p => some (value - p.value)
    | c, _ => c
  s ++ [⟨date, value, change, some (UMCSI_calculate_score value)⟩]

/-- A run of UMCSIData.add_data_point calls with no explicit change. -/
def UMCSI_run (inputs : List (ℕ × ℚ)) : List UMCSIDataPoint :=
  inputs.foldl (fun s x => UMCSI_add_data_point s x.1 x.2 none) []

/- ===================== M2.py ===================== -/

/-- A stored monetary (M2) data point.  three_month_avg, percent_change
and score start as None in the constructor. -/
structure MonetaryDataPoint where
  date : ℕ
  value : ℚ
  three_month_avg : Option ℚ
  percent_change : Option ℚ
  score : Option ℚ
deriving DecidableEq, Repr

/-- The threshold cascade of MonetaryDataPoint.calculate_score, an
ordered sequence of inclusive lower-bound tests on the current value,
copied branch for branch (including the unreachable 0.5 branch and the
0.10 fallthrough score). -/
def M2_calculate_score_value (value : ℚ) : ℚ :=
  if value ≥ 0.50 then 4
  else if value ≥ 0.40 then 6
  else if value ≥ 0.30 then 10
  else if value ≥ 0.20 then 8
  else if value ≥ 0.15 then 6
  else if value ≥ 0.10 then 4
  else if value ≥ 0.5 then 0
  else if value ≥ 0.0 then -4
  else if value ≥ -0.5 then -8
  else if value ≥ -0.10 then -10
  else if value ≥ -0.15 then 8
  else if value ≥ -0.20 then 10
  else if value ≥ -0.30 then 10
  else if value ≥ -0.40 then 10
  else 0.10

/-- MonetaryDataPoint.calculate_metrics: with at least 2 previous points,
fills the 3-month average over the previous two values and the current
one and computes the score from the current value; otherwise the point
keeps its initial None fields.  percent_change is never assigned. -/
def M2_calculate_metrics (date : ℕ) (value : ℚ)
    (previous_points : List MonetaryDataPoint) : MonetaryDataPoint :=
  if 2 ≤ previous_points.length then
    let recent_values :=
      ((previous_points.drop (previous_points.length - 2)).map
        MonetaryDataPoint.value) ++ [value]
    ⟨date, value, some (recent_values.sum / 3), none,
     some (M2_calculate_score_value value)⟩
  else ⟨date, value, none, none, none⟩

/-- MonetaryData.add_data_point: builds the point, runs
calculate_metrics against the stored points, and re-runs
calculate_score only when percent_change is set (it never is). -/
def M2_add_data_point (s : List MonetaryDataPoint) (date : ℕ) (value : ℚ) :
    List MonetaryDataPoint :=
  let new_point := M2_calculate_metrics date value s
  let new_point :=
    if new_point.percent_change.isSome then
      ⟨new_point.date, new_point.value, new_point.three_month_avg,
       new_point.percent_change, some (M2_calculate_score_value value)⟩
    else new_point
  s ++ [new_point]

/-- A run of MonetaryData.add_data_point calls from the empty state. -/
def M2_run (inputs : List (ℕ × ℚ)) : List MonetaryDataPoint :=
  inputs.foldl (fun s x => M2_add_data_point s x.1 x.2) []

/-- The dictionary shape of MonetaryDataPoint.to_dict. -/
structure M2Dict where
  date : ℕ
  value : ℚ
  three_month_avg : Option ℚ
  percent_change : Option ℚ
  score : Option ℚ
deriving DecidableEq, Repr

/-- MonetaryDataPoint.to_dict.  The source tests the Python truthiness
of the optional fields, so a stored 0 value is also exported as None. -/
def MonetaryDataPoint.to_dict (p : MonetaryDataPoint) : M2Dict :=
  ⟨p.date, p.value,
   match p.three_month_avg with
   | some a => if a = 0 then none else some (round2 a)
   | none => none,
   match p.percent_change with
   | some c => if c = 0 then none else some (round2 c)
   | none => none,
   p.score⟩

/-- MonetaryData.get_all_data: only points with a set percent_change
are exported. -/
def M2_get_all_data (s : List MonetaryDataPoint) : List M2Dict :=
  (s.filter (fun p => p.percent_change.isSome)).map MonetaryDataPoint.to_dict

/-- MonetaryData.get_last_n_months. -/
def M2_get_last_n_months (n : ℕ) (s : List MonetaryDataPoint) : List M2Dict :=
  (pyLastSlice n (s.filter (fun p => p.percent_change.isSome))).map
    MonetaryDataPoint.to_dict

/-- MonetaryData.get_current_score. -/
def M2_get_current_score (s : List MonetaryDataPoint) : Option M2Dict :=
  ((s.filter (fun p => p.percent_change.isSome)).getLast?).map
    MonetaryDataPoint.to_dict

/- ===================== CPIUCSL.py ===================== -/

/-- The CPI scoring table, a list of threshold and score pairs in
declaration order. -/
def cpi_score_table : List (ℚ × ℤ) :=
  [(1.4, 3), (1.2, 6), (1.0, 10), (0.8, 8), (0.6, 6),
   (0.4, 4), (0.3, 0), (0.0, 0), (-0.1, -6), (-0.2, -8),
   (-0.3, -10), (-0.4, 6), (-0.5, 8), (-0.6, 10), (-0.7, 10)]

/-- The nearest-threshold lookup of CPIDataPoint.calculate_score: the
Python min over the table with key the absolute distance of the
threshold to the input, which keeps the first pair on exact ties. -/
def CPI_table_lookup (cpi_12ma : ℚ) : ℤ :=
  match cpi_score_table with
  | [] => 0
  | p :: ps => (pymin (fun q => |q.1 - cpi_12ma|) p ps).2

/-- CPIDataPoint.calculate_score: values of absolute size below 0.01
short-circuit to score 0 before the table is consulted. -/
def CPI_calculate_score (cpi_12ma : ℚ) : ℤ :=
  if |cpi_12ma| < 0.01 then 0 else CPI_table_lookup cpi_12ma

/- ===================== IR%.py ===================== -/

/-- The interest-rate scoring table, keys in declaration order. -/
def interest_score_table : List (ℚ × ℤ) :=
  [(60, -10), (50, -10), (40, -10), (30, -10),
   (20, -10), (15, -9), (10, -6), (5, -3),
   (0, 0), (-5, 0), (-10, 3), (-15, 5),
   (-20, 7), (-30, -8), (-40, -9), (-50, -10), (-60, -10)]

/-- Lookup of a key in a rational-keyed dict modelled as an association
list: the value at the first matching key, none when absent. -/
def qdict_find (t : List (ℚ × ℤ)) (k : ℚ) : Option ℤ :=
  match t with
  | [] => none
  | p :: ps => if p.1 = k then some p.2 else qdict_find ps k

/-- Dictionary lookup score_table[k] for a key produced by the min
scan; the default 0 branch is unreachable because the key comes from
the table itself. -/
def table_get (t : List (ℚ × ℤ)) (k : ℚ) : ℤ :=
  (qdict_find t k).getD 0

/-- InterestRateDataPoint._calculate_score: the key closest to the raw
rate value wins, first key in declaration order on exact ties. -/
def InterestRate_calculate_score (rate_value : ℚ) : ℤ :=
  match interest_score_table.map Prod.fst with
  | [] => 0
  | k :: ks => table_get interest_score_table
      (pymin (fun x => |x - rate_value|) k ks)

/- ===================== PermitsSA.py ===================== -/

/-- The permits scoring table, keys in declaration order. -/
def permit_score_table : List (ℚ × ℤ) :=
  [(400, 10), (500, 10), (600, 10), (700, 7), (800, -8),
   (900, -5), (1000, -3), (1100, 0), (1200, 2), (1300, 3),
   (1400, 4), (1500, 5), (1600, 8), (1700, 9), (1800, 10),
   (1900, -7), (2000, -9), (2100, -10), (2200, -10), (2300, -10),
   (2400, -10)]

/-- PermitDataPoint._calculate_score. -/
def Permit_calculate_score (value : ℚ) : ℤ :=
  match permit_score_table.map Prod.fst with
  | [] => 0
  | k :: ks => table_get permit_score_table
      (pymin (fun x => |x - value|) k ks)

/- ============== Scaffolding lemmas about pymin ============== -/

theorem pymin_cons {α : Type} (f : α → ℚ) (x a : α) (xs : List α) :
    pymin f x (a :: xs) = pymin f (if f a < f x then a else x) xs := rfl

theorem pymin_mem {α : Type} (f : α → ℚ) (x : α) (xs : List α) :
    pymin f x xs ∈ x :: xs := by
  induction xs generalizing x with
  | nil => simp [pymin]
  | cons a xs ih =>
    rw [pymin_cons]
    rcases List.mem_cons.mp (ih (if f a < f x then a else x)) with h1 | h1
    · rw [h1]
      split
      · exact List.mem_cons_of_mem _ (List.mem_cons_self _ _)
      · exact List.mem_cons_self _ _
    · exact List.mem_cons_of_mem _ (List.mem_cons_of_mem _ h1)

theorem pymin_le {α : Type} (f : α → ℚ) (x : α) (xs : List α) :
    ∀ a ∈ x :: xs, f (pymin f x xs) ≤ f a := by
  induction xs generalizing x with
  | nil =>
    intro a ha
    rcases List.mem_cons.mp ha with rfl | ha2
    · exact le_of_eq rfl
    · exact absurd ha2 (List.not_mem_nil a)
  | cons b xs ih =>
    intro a ha
    rw [pymin_cons]
    have hyx : f (if f b < f x then b else x) ≤ f x := by
      split
      · exact le_of_lt (by assumption)
      · exact le_refl _
    have hyb : f (if f b < f x then b else x) ≤ f b := by
      split
      · exact le_refl _
      · exact le_of_not_lt (by assumption)
    have hbase := ih (if f b < f x then b else x) _ (List.mem_cons_self _ _)
    rcases List.mem_cons.mp ha with rfl | ha2
    · exact le_trans hbase hyx
    rcases List.mem_cons.mp ha2 with rfl | ha3
    · exact le_trans hbase hyb
    · exact ih _ a (List.mem_cons_of_mem _ ha3)

theorem pymin_first {α : Type} (f : α → ℚ) (x : α) (xs : List α) :
    ∃ l1 l2, x :: xs = l1 ++ pymin f x xs :: l2 ∧
      ∀ a ∈ l1, f (pymin f x xs) < f a := by
  induction xs generalizing x with
  | nil => exact ⟨[], [], by simp [pymin], by simp⟩
  | cons b xs ih =>
    rw [pymin_cons]
    by_cases hbx : f b < f x
    · rw [if_pos hbx]
      obtain ⟨l1, l2, hdec, hlt⟩ := ih b
      generalize hgm : pymin f b xs = m at hdec hlt ⊢
      cases l1 with
      | nil =>
        simp only [List.nil_append] at hdec
        obtain ⟨hb, hl2⟩ := List.cons.injEq .. ▸ hdec
        refine ⟨[x], l2, ?_, ?_⟩
        · rw [← hb, ← hl2]; rfl
        · intro a ha
          rcases List.mem_singleton.mp ha with rfl
          rw [← hb]; exact hbx
      | cons c l1t =>
        simp only [List.cons_append] at hdec
        obtain ⟨hc, hxs⟩ := List.cons.injEq .. ▸ hdec
        subst hc
        refine ⟨x :: b :: l1t, l2, ?_, ?_⟩
        · rw [hxs]; rfl
        · intro a ha
          have hminb : f m < f b := hlt b (List.mem_cons_self _ _)
          rcases List.mem_cons.mp ha with rfl | ha2
          · exact lt_trans hminb hbx
          · exact hlt a ha2
    · rw [if_neg hbx]
      obtain ⟨l1, l2, hdec, hlt⟩ := ih x
      generalize hgm : pymin f x xs = m at hdec hlt ⊢
      cases l1 with
      | nil =>
        simp only [List.nil_append] at hdec
        obtain ⟨hx, hl2⟩ := List.cons.injEq .. ▸ hdec
        exact ⟨[], b :: xs, by rw [← hx]; rfl, by simp⟩
      | cons c l1t =>
        simp only [List.cons_append] at hdec
        obtain ⟨hc, hxs⟩ := List.cons.injEq .. ▸ hdec
        subst hc
        have hminx : f m < f x := hlt x (List.mem_cons_self _ _)
        refine ⟨x :: b :: l1t, l2, ?_, ?_⟩
        · rw [hxs]; rfl
        · intro a ha
          rcases List.mem_cons.mp ha with rfl | ha2
          · exact hminx
          rcases List.mem_cons.mp ha2 with rfl | ha3
          · exact lt_of_lt_of_le hminx (le_of_not_lt hbx)
          · exact hlt a (List.mem_cons_of_mem _ ha3)

/-- With every key at most v, the closest-key scan over keys degenerates
to the running maximum. -/
theorem pymin_all_le (v x : ℚ) (xs : List ℚ) (hx : x ≤ v)
    (hxs : ∀ a ∈ xs, a ≤ v) :
    pymin (fun k => |k - v|) x xs = xs.foldl max x := by
  induction xs generalizing x with
  | nil => rfl
  | cons a xs ih =>
    have ha : a ≤ v := hxs a (List.mem_cons_self _ _)
    rw [pymin_cons, List.foldl_cons]
    have hstep : (if |a - v| < |x - v| then a else x) = max x a := by
      rw [abs_of_nonpos (by linarith : a - v ≤ 0),
          abs_of_nonpos (by linarith : x - v ≤ 0)]
      rcases lt_trichotomy x a with h | h | h
      · rw [if_pos (by linarith), max_eq_right h.le]
      · rw [h, if_neg (by linarith), max_self]
      · rw [if_neg (by linarith), max_eq_left h.le]
    rw [hstep]
    exact ih (max x a) (max_le hx ha)
      (fun b hb => hxs b (List.mem_cons_of_mem _ hb))

/-- With every key at least v, the closest-key scan over keys
degenerates to the running minimum. -/
theorem pymin_all_ge (v x : ℚ) (xs : List ℚ) (hx : v ≤ x)
    (hxs : ∀ a ∈ xs, v ≤ a) :
    pymin (fun k => |k - v|) x xs = xs.foldl min x := by
  induction xs generalizing x with
  | nil => rfl
  | cons a xs ih =>
    have ha : v ≤ a := hxs a (List.mem_cons_self _ _)
    rw [pymin_cons, List.foldl_cons]
    have hstep : (if |a - v| < |x - v| then a else x) = min x a := by
      rw [abs_of_nonneg (by linarith : (0:ℚ) ≤ a - v),
          abs_of_nonneg (by linarith : (0:ℚ) ≤ x - v)]
      rcases lt_trichotomy a x with h | h | h
      · rw [if_pos (by linarith), min_eq_right h.le]
      · rw [h, if_neg (by linarith), min_self]
      · rw [if_neg (by linarith), min_eq_left h.le]
    rw [hstep]
    exact ih (min x a) (le_min hx ha)
      (fun b hb => hxs b (List.mem_cons_of_mem _ hb))

/- ======= Scaffolding: the derived-change skeleton of a series ======= -/

/-- The (value, change) skeleton that every accumulator builds when no
explicit change is supplied: the first change is derived from prev,
later ones from the preceding value. -/
def chg_run (prev : Option ℚ) : List ℚ → List (ℚ × Option ℚ)
  | [] => []
  | v :: rest => (v, prev.map (fun pv => v - pv)) :: chg_run (some v) rest

theorem chg_run_cons (prev : Option ℚ) (v : ℚ) (rest : List ℚ) :
    chg_run prev (v :: rest) =
      (v, prev.map (fun pv => v - pv)) :: chg_run (some v) rest := rfl

theorem chg_run_fst (l : List ℚ) :
    ∀ (prev : Option ℚ) (i : ℕ),
      ((chg_run prev l).get? i).map Prod.fst = l.get? i := by
  induction l with
  | nil => intro prev i; simp [chg_run]
  | cons v rest ih =>
    intro prev i
    cases i with
    | zero => simp [chg_run_cons]
    | succ j => simpa [chg_run_cons] using ih (some v) j

theorem chg_run_zero (l : List ℚ) (prev : Option ℚ) (p : ℚ × Option ℚ)
    (hp : (chg_run prev l).get? 0 = some p) :
    p.2 = prev.map (fun pv => p.1 - pv) := by
  cases l with
  | nil => simp [chg_run] at hp
  | cons v rest =>
    rw [chg_run_cons, List.get?_cons_zero] at hp
    injection hp with hp
    subst hp
    rfl

theorem chg_run_succ (l : List ℚ) :
    ∀ (prev : Option ℚ) (i : ℕ) (p q : ℚ × Option ℚ),
      (chg_run prev l).get? i = some p →
      (chg_run prev l).get? (i + 1) = some q →
      q.2 = some (q.1 - p.1) := by
  induction l with
  | nil => intro prev i p q hp _; simp [chg_run] at hp
  | cons v rest ih =>
    intro prev i p q hp hq
    cases i with
    | zero =>
      rw [chg_run_cons, List.get?_cons_zero] at hp
      injection hp with hp
      subst hp
      rw [chg_run_cons, List.get?_cons_succ] at hq
      have h0 := chg_run_zero rest (some v) q hq
      rw [h0]
      rfl
    | succ j =>
      rw [chg_run_cons, List.get?_cons_succ] at hp hq
      exact ih (some v) j p q hp hq

theorem ISM_run_proj (l : List (ℕ × ℚ)) :
    ∀ s : List ISMDataPoint,
      (l.foldl (fun s x => ISM_add_data_point s x.1 x.2 none) s).map
          (fun p => (p.value, p.change))
        = s.map (fun p => (p.value, p.change)) ++
          chg_run (s.getLast?.map ISMDataPoint.value) (l.map Prod.snd) := by
  induction l with
  | nil => intro s; simp [chg_run]
  | cons hd tl ih =>
    intro s
    rw [List.map_cons, List.foldl_cons, ih, chg_run_cons]
    simp only [ISM_add_data_point, List.getLast?_concat, List.map_append,
      List.map_cons, List.map_nil, Option.map_some]
    cases hs : s.getLast? with
    | none => simp [hs]
    | some q => simp [hs]

theorem NMI_run_proj (l : List (ℕ × ℚ)) :
    ∀ s : List NMIDataPoint,
      (l.foldl (fun s x => NMI_add_data_point s x.1 x.2 none) s).map
          (fun p => (p.value, p.change))
        = s.map (fun p => (p.value, p.change)) ++
          chg_run (s.getLast?.map NMIDataPoint.value) (l.map Prod.snd) := by
  induction l with
  | nil => intro s; simp [chg_run]
  | cons hd tl ih =>
    intro s
    rw [List.map_cons, List.foldl_cons, ih, chg_run_cons]
    simp only [NMI_add_data_point, List.getLast?_concat, List.map_append,
      List.map_cons, List.map_nil, Option.map_some]
    cases hs : s.getLast? with
    | none => simp [hs]
    | some q => simp [hs]

theorem UMCSI_run_proj (l : List (ℕ × ℚ)) :
    ∀ s : List UMCSIDataPoint,
      (l.foldl (fun s x => UMCSI_add_data_point s x.1 x.2 none) s).map
          (fun p => (p.value, p.change))
        = s.map (fun p => (p.value, p.change)) ++
          chg_run (s.getLast?.map UMCSIDataPoint.value) (l.map Prod.snd) := by
  induction l with
  | nil => intro s; simp [chg_run]
  | cons hd tl ih =>
    intro s
    rw [List.map_cons, List.foldl_cons, ih, chg_run_cons]
    simp only [UMCSI_add_data_point, List.getLast?_concat, List.map_append,
      List.map_cons, List.map_nil, Option.map_some]
    cases hs : s.getLast? with
    | none => simp [hs]
    | some q => simp [hs]

theorem ISM_run_get_proj (inputs : List (ℕ × ℚ)) (i : ℕ) :
    ((ISM_run inputs).get? i).map (fun p => (p.value, p.change)) =
      (chg_run none (inputs.map Prod.snd)).get? i := by
  rw [← List.get?_map,
    show (ISM_run inputs).map (fun p => (p.value, p.change)) =
      chg_run none (inputs.map Prod.snd) from by
        simpa [ISM_run] using ISM_run_proj inputs []]

theorem NMI_run_get_proj (inputs : List (ℕ × ℚ)) (i : ℕ) :
    ((NMI_run inputs).get? i).map (fun p => (p.value, p.change)) =
      (chg_run none (inputs.map Prod.snd)).get? i := by
  rw [← List.get?_map,
    show (NMI_run inputs).map (fun p => (p.value, p.change)) =
      chg_run none (inputs.map Prod.snd) from by
        simpa [NMI_run] using NMI_run_proj inputs []]

theorem UMCSI_run_get_proj (inputs : List (ℕ × ℚ)) (i : ℕ) :
    ((UMCSI_run inputs).get? i).map (fun p => (p.value, p.change)) =
      (chg_run none (inputs.map Prod.snd)).get? i := by
  rw [← List.get?_map,
    show (UMCSI_run inputs).map (fun p => (p.value, p.change)) =
      chg_run none (inputs.map Prod.snd) from by
        simpa [UMCSI_run] using UMCSI_run_proj inputs []]

/- ============ Scaffolding lemmas about the M2 accumulator ============ -/

theorem M2_metrics_pc (d : ℕ) (v : ℚ) (s : List MonetaryDataPoint) :
    (M2_calculate_metrics d v s).percent_change = none := by
  simp only [M2_calculate_metrics]
  split <;> rfl

theorem M2_add_eq (s : List MonetaryDataPoint) (d : ℕ) (v : ℚ) :
    M2_add_data_point s d v = s ++ [M2_calculate_metrics d v s] := by
  simp [M2_add_data_point, M2_metrics_pc]

theorem M2_foldl_pc (l : List (ℕ × ℚ)) :
    ∀ s : List MonetaryDataPoint, (∀ p ∈ s, p.percent_change = none) →
      ∀ p ∈ l.foldl (fun s x => M2_add_data_point s x.1 x.2) s,
        p.percent_change = none := by
  induction l with
  | nil => intro s hs; exact hs
  | cons hd tl ih =>
    intro s hs
    rw [List.foldl_cons]
    apply ih
    intro p hp
    rw [M2_add_eq] at hp
    rcases List.mem_append.mp hp with h | h
    · exact hs p h
    · rw [List.mem_singleton.mp h]
      exact M2_metrics_pc ..

theorem two_le_length_concat2 {α : Type} (l : List α) (h : 2 ≤ l.length) :
    ∃ (t : List α) (a b : α), l = t ++ [a, b] := by
  rcases l.eq_nil_or_concat with rfl | ⟨l1, b, rfl⟩
  · simp at h
  rcases l1.eq_nil_or_concat with rfl | ⟨t, a, rfl⟩
  · simp at h
  · exact ⟨t, a, b, by simp⟩

/- ============ Scaffolding lemmas about pyRound bounds ============ -/

theorem pyRound_le_round (q : ℚ) : pyRound q ≤ round q := by
  simp only [pyRound]
  split_ifs with h1 h2
  · rw [round_eq]
    exact Int.floor_le_floor (by linarith)
  · rw [round_eq]
    have hq : q + 1/2 = ((⌊q⌋ + 1 : ℤ) : ℚ) := by push_cast; linarith
    rw [hq, Int.floor_intCast]
  · exact le_refl _

theorem floor_le_pyRound (q : ℚ) : ⌊q⌋ ≤ pyRound q := by
  simp only [pyRound]
  split_ifs with h1 h2
  · exact le_refl _
  · omega
  · rw [round_eq]
    exact Int.floor_le_floor (by linarith)

theorem pyRound_le_of_le (q : ℚ) (n : ℤ) (h : q ≤ (n : ℚ)) : pyRound q ≤ n := by
  refine le_trans (pyRound_le_round q) ?_
  rw [round_eq]
  have h2 : ⌊q + 1/2⌋ ≤ ⌊(n : ℚ) + 1/2⌋ := Int.floor_le_floor (by linarith)
  rwa [Int.floor_int_add, show ⌊(1/2 : ℚ)⌋ = 0 by norm_num, add_zero] at h2

theorem le_pyRound_of_le (q : ℚ) (n : ℤ) (h : (n : ℚ) ≤ q) : n ≤ pyRound q :=
  le_trans (Int.le_floor.mpr h) (floor_le_pyRound q)

/-- m is the first minimiser of f over l: it occurs in l, every element
before it has a strictly larger f value, and nothing in l has a smaller
f value. -/
def IsFirstMin {α : Type} (f : α → ℚ) (l : List α) (m : α) : Prop :=
  (∃ l1 l2, l = l1 ++ m :: l2 ∧ ∀ a ∈ l1, f m < f a) ∧ ∀ a ∈ l, f m ≤ f a

theorem pymin_isFirstMin {α : Type} (f : α → ℚ) (x : α) (xs : List α) :
    IsFirstMin f (x :: xs) (pymin f x xs) :=
  ⟨pymin_first f x xs, pymin_le f x xs⟩

/- ===================== Claims ===================== -/

/-- C1 (amended): for every diffusion call with a previous raw value
above 50, a current value at most 50 and a present change, the trough
branch fires and returns immediately with score round1 of
(8 + min 2 (half the absolute change)) for ISM and round1 of the
negated formula for NMI (opposite signs), bias Long, phase Project
Diffusion; in particular previous 51, current 49, change -2 gives ISM
score 9 and NMI score -9. -/
theorem diffusion_trough_transition (v c prev : ℚ) (h1 : prev > 50) (h2 : v ≤ 50) :
    ISM_calculate_score v (some c) (some prev) =
      some ⟨round1 (8 + min 2 (|c| / 2)), "Long Bias", "Project Diffusion",
            "ISM troughs below 50"⟩ ∧
    NMI_calculate_score v (some c) (some prev) =
      some ⟨round1 (-8 - min 2 (|c| / 2)), "Long Bias", "Project Diffusion",
            "NMI troughs below 50"⟩ ∧
    (ISM_calculate_score 49 (some (-2)) (some 51)).map ScoreInfo.score = some 9 ∧
    (NMI_calculate_score 49 (some (-2)) (some 51)).map ScoreInfo.score = some (-9) := by
  refine ⟨?_, ?_, ?_, ?_⟩
  · simp only [ISM_calculate_score]
    rw [if_pos ⟨h1, h2⟩]
  · simp only [NMI_calculate_score]
    rw [if_pos ⟨h1, h2⟩]
  · norm_num [ISM_calculate_score, round1, pyRound, round_eq, Int.even_iff,
      min_def, abs_of_nonpos]
  · norm_num [NMI_calculate_score, round1, pyRound, round_eq, Int.even_iff,
      min_def, abs_of_nonpos]

/-- Witness for C1 at previous 51, current 49, change -2. -/
theorem diffusion_trough_transition_witness :
    ISM_calculate_score 49 (some (-2)) (some 51) =
      some ⟨9, "Long Bias", "Project Diffusion", "ISM troughs below 50"⟩ ∧
    NMI_calculate_score 49 (some (-2)) (some 51) =
      some ⟨-9, "Long Bias", "Project Diffusion", "NMI troughs below 50"⟩ := by
  have h := diffusion_trough_transition 49 (-2) 51 (by norm_num) (by norm_num)
  refine ⟨h.1.trans ?_, h.2.1.trans ?_⟩ <;>
    norm_num [round1, pyRound, round_eq, Int.even_iff, min_def, abs_of_nonpos]

/-- C1 counterexample: at previous 51, current 49, change -0.26 the ISM
trough score stored by the code is 8.1, while the unrounded claim
formula 8 + min 2 (half the absolute change) gives 8.13, so the claim
as stated fails. -/
theorem diffusion_trough_unrounded_counterexample :
    (ISM_calculate_score 49 (some (-13/50)) (some 51)).map ScoreInfo.score =
      some (81/10) ∧
    (81/10 : ℚ) ≠ 8 + min 2 (|(-13/50 : ℚ)| / 2) := by
  constructor
  · norm_num [ISM_calculate_score, round1, pyRound, round_eq, Int.even_iff,
      min_def, abs_of_nonpos]
  · norm_num [min_def, abs_of_nonneg]

/-- C2: feeding (Jan, 52), (Feb, 53.5), (Mar, 49) through the ISM
accumulator yields: Jan with no change and no score, Feb with derived
change 1.5 and scenario Above 50 and growing, Mar with scenario ISM
troughs below 50 fired by previous 53.5 above 50 and current 49 at most
50. -/
theorem ism_end_to_end_run : ISM_run [(1, 52), (2, 107/2), (3, 49)] =
    [⟨1, 52, none, none⟩,
     ⟨2, 107/2, some (3/2), some ⟨29/5, "Short Bias", "Initiation", "Above 50 and growing"⟩⟩,
     ⟨3, 49, some (-9/2), some ⟨10, "Long Bias", "Project Diffusion", "ISM troughs below 50"⟩⟩] := by
  norm_num [ISM_run, ISM_add_data_point, ISM_calculate_score, ism_standard_score,
    round1, pyRound, round_eq, Int.even_iff, List.getLast?, min_def, max_def,
    abs_of_nonneg, abs_of_nonpos]

/-- C8: a diffusion data point with absent change gets no score at all
(None, not a fabricated zero), and its exported dictionary carries
absent score, bias, phase and scenario; the scoring core is a total
function, so no input raises. -/
theorem missing_change_no_score (d : ℕ) (v : ℚ) (prev : Option ℚ) :
    ISM_calculate_score v none prev = none ∧
    ISMDataPoint.to_dict ⟨d, v, none, ISM_calculate_score v none prev⟩ =
      ⟨d, v, none, none, none, none, none⟩ ∧
    NMI_calculate_score v none prev = none ∧
    NMIDataPoint.to_dict ⟨d, v, none, NMI_calculate_score v none prev⟩ =
      ⟨d, v, none, none, none, none, none⟩ :=
  ⟨rfl, rfl, rfl, rfl⟩

/-- C4: over any sequence of M2 appends, percent_change stays None on
every stored point, so get_all_data and get_last_n_months are always
empty and get_current_score is always None. -/
theorem m2_percent_change_never_set (inputs : List (ℕ × ℚ)) :
    (∀ (i : ℕ) (p : MonetaryDataPoint),
      (M2_run inputs).get? i = some p → p.percent_change = none) ∧
    M2_get_all_data (M2_run inputs) = [] ∧
    (∀ n : ℕ, M2_get_last_n_months n (M2_run inputs) = []) ∧
    M2_get_current_score (M2_run inputs) = none := by
  have hall : ∀ p ∈ M2_run inputs, p.percent_change = none :=
    M2_foldl_pc inputs [] (by simp)
  have hfilter : (M2_run inputs).filter (fun p => p.percent_change.isSome) = [] := by
    rw [List.filter_eq_nil_iff]
    intro p hp
    simp [hall p hp]
  refine ⟨?_, ?_, ?_, ?_⟩
  · intro i p hp
    exact hall p (List.get?_mem hp)
  · simp [M2_get_all_data, hfilter]
  · intro n
    simp [M2_get_last_n_months, hfilter, pyLastSlice]
  · simp [M2_get_current_score, hfilter]

/-- Witness for C4 on the single append of value 0.3. -/
theorem m2_percent_change_never_set_witness :
    (⟨1, 3/10, none, none, none⟩ : MonetaryDataPoint).percent_change = none ∧
    M2_get_current_score (M2_run [(1, 3/10)]) = none := by
  have h := m2_percent_change_never_set [(1, 3/10)]
  refine ⟨h.1 0 _ ?_, h.2.2.2⟩
  norm_num [M2_run, M2_add_data_point, M2_calculate_metrics]

/-- C3 (amended): a diffusion score is defined exactly when change is
present; a UMCSI append always scores its point (value is always
present); an M2 append scores its point exactly when at least 2 prior
observations exist, so the first two appended M2 observations carry a
value but no score; an absent score is None, never a sentinel number. -/
theorem score_defined_iff_inputs (v : ℚ) (c prev : Option ℚ) (d : ℕ)
    (s : List MonetaryDataPoint) (u : List UMCSIDataPoint) (uc : Option ℚ) :
    (ISM_calculate_score v c prev).isSome = c.isSome ∧
    (NMI_calculate_score v c prev).isSome = c.isSome ∧
    (∃ p : UMCSIDataPoint, (UMCSI_add_data_point u d v uc).getLast? = some p ∧
      p.score = some (UMCSI_calculate_score v)) ∧
    (∃ p : MonetaryDataPoint, (M2_add_data_point s d v).getLast? = some p ∧
      (p.score.isSome ↔ 2 ≤ s.length)) := by
  refine ⟨?_, ?_, ?_, ?_⟩
  · cases c with
    | none => rfl
    | some x =>
      cases prev with
      | none => rfl
      | some pv =>
        simp only [ISM_calculate_score]
        split_ifs <;> rfl
  · cases c with
    | none => rfl
    | some x =>
      cases prev with
      | none => rfl
      | some pv =>
        simp only [NMI_calculate_score]
        split_ifs <;> rfl
  · have h : UMCSI_add_data_point u d v uc =
        u ++ [⟨d, v,
          (match uc, u.getLast? with
           | none, some p => some (v - p.value)
           | c, _ => c), some (UMCSI_calculate_score v)⟩] := rfl
    rw [h, List.getLast?_concat]
    exact ⟨_, rfl, rfl⟩
  · rw [M2_add_eq, List.getLast?_concat]
    refine ⟨_, rfl, ?_⟩
    simp only [M2_calculate_metrics]
    split
    · simp [*]
    · simp [*]

/-- C9: in every series accumulator (ISM, NMI, UMCSI), an append without
an explicit change derives it as the new value minus the immediately
preceding appended value, the first observation keeps change absent,
and stored values are the appended values. -/
theorem derived_change_from_previous (inputs : List (ℕ × ℚ)) :
    (∀ (i : ℕ) (p q : ISMDataPoint),
      (ISM_run inputs).get? i = some p → (ISM_run inputs).get? (i + 1) = some q →
      q.change = some (q.value - p.value)) ∧
    (∀ p : ISMDataPoint, (ISM_run inputs).get? 0 = some p → p.change = none) ∧
    (∀ i : ℕ, ((ISM_run inputs).get? i).map ISMDataPoint.value =
      (inputs.get? i).map Prod.snd) ∧
    (∀ (i : ℕ) (p q : NMIDataPoint),
      (NMI_run inputs).get? i = some p → (NMI_run inputs).get? (i + 1) = some q →
      q.change = some (q.value - p.value)) ∧
    (∀ p : NMIDataPoint, (NMI_run inputs).get? 0 = some p → p.change = none) ∧
    (∀ i : ℕ, ((NMI_run inputs).get? i).map NMIDataPoint.value =
      (inputs.get? i).map Prod.snd) ∧
    (∀ (i : ℕ) (p q : UMCSIDataPoint),
      (UMCSI_run inputs).get? i = some p → (UMCSI_run inputs).get? (i + 1) = some q →
      q.change = some (q.value - p.value)) ∧
    (∀ p : UMCSIDataPoint, (UMCSI_run inputs).get? 0 = some p → p.change = none) ∧
    (∀ i : ℕ, ((UMCSI_run inputs).get? i).map UMCSIDataPoint.value =
      (inputs.get? i).map Prod.snd) := by
  refine ⟨?_, ?_, ?_, ?_, ?_, ?_, ?_, ?_, ?_⟩
  · intro i p q hp hq
    have hp2 := ISM_run_get_proj inputs i
    have hq2 := ISM_run_get_proj inputs (i + 1)
    rw [hp] at hp2
    rw [hq] at hq2
    exact chg_run_succ (inputs.map Prod.snd) none i _ _ hp2.symm hq2.symm
  · intro p hp
    have hp2 := ISM_run_get_proj inputs 0
    rw [hp] at hp2
    simpa using chg_run_zero (inputs.map Prod.snd) none _ hp2.symm
  · intro i
    have h1 := congrArg (Option.map Prod.fst) (ISM_run_get_proj inputs i)
    rw [Option.map_map] at h1
    exact h1.trans (by rw [chg_run_fst, List.get?_map])
  · intro i p q hp hq
    have hp2 := NMI_run_get_proj inputs i
    have hq2 := NMI_run_get_proj inputs (i + 1)
    rw [hp] at hp2
    rw [hq] at hq2
    exact chg_run_succ (inputs.map Prod.snd) none i _ _ hp2.symm hq2.symm
  · intro p hp
    have hp2 := NMI_run_get_proj inputs 0
    rw [hp] at hp2
    simpa using chg_run_zero (inputs.map Prod.snd) none _ hp2.symm
  · intro i
    have h1 := congrArg (Option.map Prod.fst) (NMI_run_get_proj inputs i)
    rw [Option.map_map] at h1
    exact h1.trans (by rw [chg_run_fst, List.get?_map])
  · intro i p q hp hq
    have hp2 := UMCSI_run_get_proj inputs i
    have hq2 := UMCSI_run_get_proj inputs (i + 1)
    rw [hp] at hp2
    rw [hq] at hq2
    exact chg_run_succ (inputs.map Prod.snd) none i _ _ hp2.symm hq2.symm
  · intro p hp
    have hp2 := UMCSI_run_get_proj inputs 0
    rw [hp] at hp2
    simpa using chg_run_zero (inputs.map Prod.snd) none _ hp2.symm
  · intro i
    have h1 := congrArg (Option.map Prod.fst) (UMCSI_run_get_proj inputs i)
    rw [Option.map_map] at h1
    exact h1.trans (by rw [chg_run_fst, List.get?_map])

/-- Witness for C9: appending values 52 then 53.5 to the ISM series
derives change 1.5 on the second observation and keeps the first
change absent. -/
theorem derived_change_from_previous_witness :
    (⟨2, 107/2, some (3/2),
      some ⟨29/5, "Short Bias", "Initiation", "Above 50 and growing"⟩⟩ :
        ISMDataPoint).change = some ((107/2 : ℚ) - 52) ∧
    (⟨1, 52, none, none⟩ : ISMDataPoint).change = none := by
  have h := derived_change_from_previous [(1, 52), (2, 107/2)]
  have h0 : (ISM_run [(1, 52), (2, 107/2)]).get? 0 = some ⟨1, 52, none, none⟩ := by
    norm_num [ISM_run, ISM_add_data_point, ISM_calculate_score, ism_standard_score,
      round1, pyRound, round_eq, Int.even_iff, List.getLast?, min_def, max_def,
      abs_of_nonneg, abs_of_nonpos]
  have h1 : (ISM_run [(1, 52), (2, 107/2)]).get? 1 =
      some ⟨2, 107/2, some (3/2),
        some ⟨29/5, "Short Bias", "Initiation", "Above 50 and growing"⟩⟩ := by
    norm_num [ISM_run, ISM_add_data_point, ISM_calculate_score, ism_standard_score,
      round1, pyRound, round_eq, Int.even_iff, List.getLast?, min_def, max_def,
      abs_of_nonneg, abs_of_nonpos]
  exact ⟨h.1 0 _ _ h0 h1, h.2.1 _ h0⟩

/-- C10: with at least 2 prior observations the appended M2 point gets
the 3-point simple average of the previous two stored values and the
current value, otherwise the average is absent; the score set alongside
is a function of the current value alone (some M2_calculate_score_value
of the value), and absent below 2 prior observations. -/
theorem m2_three_month_avg_spec (d : ℕ) (v : ℚ) (prior : List MonetaryDataPoint) :
    (2 ≤ prior.length →
      ∃ p1 p2 : MonetaryDataPoint,
        prior.get? (prior.length - 2) = some p1 ∧
        prior.get? (prior.length - 1) = some p2 ∧
        (M2_calculate_metrics d v prior).three_month_avg =
          some ((p1.value + p2.value + v) / 3)) ∧
    (prior.length < 2 → (M2_calculate_metrics d v prior).three_month_avg = none) ∧
    (2 ≤ prior.length →
      (M2_calculate_metrics d v prior).score = some (M2_calculate_score_value v)) ∧
    (prior.length < 2 → (M2_calculate_metrics d v prior).score = none) := by
  refine ⟨?_, ?_, ?_, ?_⟩
  · intro h
    obtain ⟨t, a, b, rfl⟩ := two_le_length_concat2 prior h
    have hlen2 : (t ++ [a, b]).length - 2 = t.length := by simp
    have hlen1 : (t ++ [a, b]).length - 1 = t.length + 1 := by simp
    refine ⟨a, b, ?_, ?_, ?_⟩
    · rw [hlen2, List.get?_append_right (Nat.le_refl _)]
      simp
    · rw [hlen1, List.get?_append_right (Nat.le_succ_of_le (Nat.le_refl _))]
      simp
    · simp only [M2_calculate_metrics, if_pos h]
      rw [hlen2, List.drop_left]
      simp only [List.map_cons, List.map_nil, List.cons_append, List.nil_append,
        List.sum_cons, List.sum_nil]
      ring_nf
  · intro h
    simp only [M2_calculate_metrics, if_neg (by omega : ¬ 2 ≤ prior.length)]
  · intro h
    simp only [M2_calculate_metrics, if_pos h]
  · intro h
    simp only [M2_calculate_metrics, if_neg (by omega : ¬ 2 ≤ prior.length)]

/-- Witness for C10 with prior values 0.5 and 0.25 and current value
0.3: the average is 0.35 and the score is 10. -/
theorem m2_three_month_avg_spec_witness :
    (M2_calculate_metrics 3 (3/10)
      [⟨1, 1/2, none, none, none⟩, ⟨2, 1/4, none, none, none⟩]).three_month_avg =
      some (7/20) ∧
    (M2_calculate_metrics 3 (3/10)
      [⟨1, 1/2, none, none, none⟩, ⟨2, 1/4, none, none, none⟩]).score = some 10 := by
  have h := m2_three_month_avg_spec 3 (3/10)
    [⟨1, 1/2, none, none, none⟩, ⟨2, 1/4, none, none, none⟩]
  obtain ⟨p1, p2, hp1, hp2, havg⟩ := h.1 (by norm_num)
  constructor
  · rw [havg]
    simp only [List.length_cons, List.length_nil, List.get?] at hp1 hp2
    injection hp1 with hp1
    injection hp2 with hp2
    rw [← hp1, ← hp2]
    norm_num
  · rw [h.2.2.1 (by norm_num)]
    norm_num [M2_calculate_score_value]

/-- C5: the interest-rate and permits scorers return the table value of
the key minimising the absolute distance to the input, exact ties going
to the first key in declaration order; every permits value at least
2400 scores -10 and every permits value at most 400 scores 10. -/
theorem threshold_nearest_key (v : ℚ) :
    (∃ k : ℚ, IsFirstMin (fun x => |x - v|) (interest_score_table.map Prod.fst) k ∧
      InterestRate_calculate_score v = table_get interest_score_table k) ∧
    (∃ k : ℚ, IsFirstMin (fun x => |x - v|) (permit_score_table.map Prod.fst) k ∧
      Permit_calculate_score v = table_get permit_score_table k) ∧
    (2400 ≤ v → Permit_calculate_score v = -10) ∧
    (v ≤ 400 → Permit_calculate_score v = 10) := by
  refine ⟨?_, ?_, ?_, ?_⟩
  · exact ⟨pymin (fun x => |x - v|) 60
      [50, 40, 30, 20, 15, 10, 5, 0, -5, -10, -15, -20, -30, -40, -50, -60],
      pymin_isFirstMin _ _ _, rfl⟩
  · exact ⟨pymin (fun x => |x - v|) 400
      [500, 600, 700, 800, 900, 1000, 1100, 1200, 1300, 1400, 1500, 1600,
       1700, 1800, 1900, 2000, 2100, 2200, 2300, 2400],
      pymin_isFirstMin _ _ _, rfl⟩
  · intro h
    show table_get permit_score_table (pymin (fun x => |x - v|) 400
      [500, 600, 700, 800, 900, 1000, 1100, 1200, 1300, 1400, 1500, 1600,
       1700, 1800, 1900, 2000, 2100, 2200, 2300, 2400]) = -10
    rw [pymin_all_le v 400 _ (by linarith) ?hkeys]
    case hkeys =>
      intro a ha
      simp only [List.mem_cons, List.not_mem_nil, or_false] at ha
      rcases ha with rfl | rfl | rfl | rfl | rfl | rfl | rfl | rfl | rfl | rfl |
        rfl | rfl | rfl | rfl | rfl | rfl | rfl | rfl | rfl | rfl <;> linarith
    norm_num [List.foldl, max_def, table_get, qdict_find, permit_score_table]
  · intro h
    show table_get permit_score_table (pymin (fun x => |x - v|) 400
      [500, 600, 700, 800, 900, 1000, 1100, 1200, 1300, 1400, 1500, 1600,
       1700, 1800, 1900, 2000, 2100, 2200, 2300, 2400]) = 10
    rw [pymin_all_ge v 400 _ (by linarith) ?hkeys]
    case hkeys =>
      intro a ha
      simp only [List.mem_cons, List.not_mem_nil, or_false] at ha
      rcases ha with rfl | rfl | rfl | rfl | rfl | rfl | rfl | rfl | rfl | rfl |
        rfl | rfl | rfl | rfl | rfl | rfl | rfl | rfl | rfl | rfl <;> linarith
    norm_num [List.foldl, min_def, table_get, qdict_find, permit_score_table]

/-- Witness for C5 at permits values 2500 and 300. -/
theorem threshold_nearest_key_witness :
    Permit_calculate_score 2500 = -10 ∧ Permit_calculate_score 300 = 10 :=
  ⟨(threshold_nearest_key 2500).2.2.1 (by norm_num),
   (threshold_nearest_key 300).2.2.2 (by norm_num)⟩

/-- C6: the UMCSI scorer looks up clamp(round v, 55, 105) in the dense
band table, so the default-0 branch never fires; 54.9 scores like 55,
105.4 scores like 105, every value at most 55 scores 10 and every value
at least 105 scores -10. -/
theorem umcsi_clamped_band (v : ℚ) :
    (∃ s : ℤ, dict_find score_map (max 55 (min 105 (pyRound v))) = some s ∧
      UMCSI_calculate_score v = s) ∧
    UMCSI_calculate_score (549/10) = UMCSI_calculate_score 55 ∧
    UMCSI_calculate_score (1054/10) = UMCSI_calculate_score 105 ∧
    (v ≤ 55 → UMCSI_calculate_score v = 10) ∧
    (105 ≤ v → UMCSI_calculate_score v = -10) := by
  have hdense : ∀ c : ℤ, 55 ≤ c → c ≤ 105 → (dict_find score_map c).isSome = true := by
    intro c h1 h2
    interval_cases c <;> decide
  refine ⟨?_, ?_, ?_, ?_, ?_⟩
  · have hge : (55:ℤ) ≤ max 55 (min 105 (pyRound v)) := le_max_left _ _
    have hle : max 55 (min 105 (pyRound v)) ≤ 105 :=
      max_le (by norm_num) (min_le_left _ _)
    obtain ⟨s, hs⟩ := Option.isSome_iff_exists.mp (hdense _ hge hle)
    refine ⟨s, hs, ?_⟩
    simp only [UMCSI_calculate_score]
    rw [hs]
    rfl
  · norm_num [UMCSI_calculate_score, pyRound, round_eq, Int.even_iff,
      dict_find, score_map, min_def, max_def]
  · norm_num [UMCSI_calculate_score, pyRound, round_eq, Int.even_iff,
      dict_find, score_map, min_def, max_def]
  · intro h
    have hr : pyRound v ≤ 55 := pyRound_le_of_le v 55 (by exact_mod_cast h)
    simp only [UMCSI_calculate_score]
    rw [min_eq_right (le_trans hr (by norm_num)), max_eq_left hr]
    decide
  · intro h
    have hr : (105:ℤ) ≤ pyRound v := le_pyRound_of_le v 105 (by exact_mod_cast h)
    simp only [UMCSI_calculate_score]
    rw [min_eq_left hr, max_eq_right (by norm_num : (55:ℤ) ≤ 105)]
    decide

/-- Witness for C6 at values 50 and 110. -/
theorem umcsi_clamped_band_witness :
    UMCSI_calculate_score 50 = 10 ∧ UMCSI_calculate_score 110 = -10 :=
  ⟨(umcsi_clamped_band 50).2.2.2.1 (by norm_num),
   (umcsi_clamped_band 110).2.2.2.2 (by norm_num)⟩

/-- C7: the CPI scorer returns 0 for every input of absolute size below
0.01 without consulting the table; the value 1.0 scores 10 through the
table, the value 0.0 scores 0 (and the table branch at 0.0 would give 0
as well). -/
theorem cpi_zero_guard (v : ℚ) :
    (|v| < 0.01 → CPI_calculate_score v = 0) ∧
    CPI_calculate_score 1 = 10 ∧
    CPI_calculate_score 0 = 0 ∧
    CPI_table_lookup 1 = 10 ∧
    CPI_table_lookup 0 = 0 := by
  refine ⟨?_, ?_, ?_, ?_, ?_⟩
  · intro h
    simp only [CPI_calculate_score]
    rw [if_pos h]
  · simp only [CPI_calculate_score]
    rw [if_neg (by norm_num)]
    norm_num [CPI_table_lookup, cpi_score_table, pymin, List.foldl,
      abs_of_nonneg, abs_of_nonpos]
  · simp only [CPI_calculate_score]
    rw [if_pos (by norm_num)]
  · norm_num [CPI_table_lookup, cpi_score_table, pymin, List.foldl,
      abs_of_nonneg, abs_of_nonpos]
  · norm_num [CPI_table_lookup, cpi_score_table, pymin, List.foldl,
      abs_of_nonneg, abs_of_nonpos]

/-- Witness for C7 at the value 0.005. -/
theorem cpi_zero_guard_witness : CPI_calculate_score (1/200) = 0 :=
  (cpi_zero_guard (1/200)).1 (by norm_num [abs_of_nonneg])

/-- C3 counterexample: the first observation appended to the M2 series
carries the value 0.3 yet its score is None, against the claim that
every appended M2 observation has a defined score. -/
theorem m2_first_point_scoreless_counterexample :
    M2_run [(1, 3/10)] = [⟨1, 3/10, none, none, none⟩] ∧
    (⟨1, 3/10, none, none, none⟩ : MonetaryDataPoint).score = none := by
  constructor
  · norm_num [M2_run, M2_add_data_point, M2_calculate_metrics]
  · rfl
